import Mathlib

/-!
Verification development for the Morse-decoder repository (offline decoder in
`src/Untitled-1.py`, class `AdvancedMorseDecoder`).

Modelling conventions:
* Python float arithmetic is modelled by exact rational arithmetic (`ℚ`); the
  numeric literals of the source (0.06, 0.8, 187.5, ...) are all exactly
  representable fractions written as rationals.
* Python exceptions are modelled by `Option`: a function that can raise
  returns `none` on the raising inputs.
* `scipy.stats.gaussian_kde` is external library code.  Its failure behaviour
  is part of the model: constructing a KDE from a dataset with fewer than two
  elements raises `ValueError`, and from a dataset whose elements are all
  equal (zero sample covariance) raises `LinAlgError`.  The located density
  peak (`x[np.argmax(kde(x))]` over `np.linspace(min, max, 100)`) on a
  non-degenerate dataset is kept abstract: the decoding theorems quantify over
  an arbitrary peak-locating function `peak valid lo hi`.
-/

namespace Morse

/-- One entry of `timing_stats` that carries hard `min`/`max` bounds
(the `dit` and `dah` entries of the source dictionary). -/
structure ToneStats where
  mean : ℚ
  std : ℚ
  min : ℚ
  max : ℚ

/-- One gap entry of `timing_stats` (`elem_gap`, `char_gap`, `word_gap`):
only a mean and a standard deviation. -/
structure GapStats where
  mean : ℚ
  std : ℚ

/-- `timing_stats['dit'] = {'mean': 0.06, 'std': 0.02, 'min': 0.045, 'max': 0.075}`. -/
def dit : ToneStats := ⟨3/50, 1/50, 9/200, 3/40⟩

/-- `timing_stats['dah'] = {'mean': 0.18, 'std': 0.02, 'min': 0.165, 'max': 0.195}`. -/
def dah : ToneStats := ⟨9/50, 1/50, 33/200, 39/200⟩

/-- `timing_stats['elem_gap'] = {'mean': 0.06, 'std': 0.01}`. -/
def elem_gap : GapStats := ⟨3/50, 1/100⟩

/-- `timing_stats['char_gap'] = {'mean': 0.18, 'std': 0.02}`. -/
def char_gap : GapStats := ⟨9/50, 1/50⟩

/-- `timing_stats['word_gap'] = {'mean': 0.42, 'std': 0.05}`. -/
def word_gap : GapStats := ⟨21/50, 1/20⟩

/-- `MORSE_CODE_DICT` from the source, as an association list
(Python dict keys are unique, so association-list lookup is dict lookup). -/
def MORSE_CODE_DICT : List (String × Char) :=
  [(".-", 'A'), ("-...", 'B'), ("-.-.", 'C'), ("-..", 'D'), (".", 'E'), ("..-.", 'F'),
   ("--.", 'G'), ("....", 'H'), ("..", 'I'), (".---", 'J'), ("-.-", 'K'), (".-..", 'L'),
   ("--", 'M'), ("-.", 'N'), ("---", 'O'), (".--.", 'P'), ("--.-", 'Q'), (".-.", 'R'),
   ("...", 'S'), ("-", 'T'), ("..-", 'U'), ("...-", 'V'), (".--", 'W'), ("-..-", 'X'),
   ("-.--", 'Y'), ("--..", 'Z'), (".----", '1'), ("..---", '2'), ("...--", '3'),
   ("....-", '4'), (".....", '5'), ("-....", '6'), ("--...", '7'), ("---..", '8'),
   ("----.", '9'), ("-----", '0'), ("/", ' '), ("--..--", ','), (".-.-.-", '.'),
   ("..--..", '?'), (".----.", '\''), ("-.-.--", '!'), ("-..-.", '/'), ("-.--.", '('),
   ("-.--.-", ')'), (".-...", '&'), ("---...", ':'), ("-.-.-.", ';'), ("-...-", '='),
   (".-.-.", '+'), ("-....-", '-'), ("..--.-", '_'), (".-..-.", '"'), ("...-..-", '$'),
   (".--.-.", '@')]

/-- Association-list lookup: the model of `code in MORSE_CODE_DICT`
followed by `MORSE_CODE_DICT[code]`. -/
def dict_lookup : List (String × Char) → String → Option Char
  | [], _ => none
  | (k, v) :: rest, code => if code = k then some v else dict_lookup rest code

/-- `_classify_symbol` (source lines 107-115): z-scores against the dit and dah
timing statistics; dash when `z_dah < z_dit`, otherwise dot. -/
def classify_symbol (duration : ℚ) : Char :=
  let z_dit := |duration - dit.mean| / dit.std
  let z_dah := |duration - dah.mean| / dah.std
  if z_dah < z_dit then '-' else '.'

/-- The classes returned by `_classify_gap`; the Python `None` result is
modelled by `Option.none`. -/
inductive GapClass where
  | word
  | char
  | elem
deriving DecidableEq

/-- `_classify_gap` (source lines 119-135): three descending thresholds,
word before char before elem, each compared with `>=`; otherwise `None`. -/
def classify_gap (duration : ℚ) : Option GapClass :=
  if word_gap.mean * (8/10) ≤ duration then some GapClass.word
  else if char_gap.mean * (7/10) ≤ duration then some GapClass.char
  else if elem_gap.mean * (12/10) ≤ duration then some GapClass.elem
  else none

/-- The categories `_dynamic_threshold` is actually called with by `decode`
(`'dit'` and `'dah'`).  The gap categories of `timing_stats` have no
`min`/`max` keys, so `_dynamic_threshold` would raise `KeyError` on them. -/
inductive Category where
  | dit
  | dah
deriving DecidableEq

/-- The `min` bound of a category, `timing_stats[category]['min']`. -/
def category_min : Category → ℚ
  | Category.dit => dit.min
  | Category.dah => dah.min

/-- The `max` bound of a category, `timing_stats[category]['max']`. -/
def category_max : Category → ℚ
  | Category.dit => dit.max
  | Category.dah => dah.max

/-- The default mean of a category, `timing_stats[category]['mean']`. -/
def category_mean : Category → ℚ
  | Category.dit => dit.mean
  | Category.dah => dah.mean

/-- The datasets on which `scipy.stats.gaussian_kde` raises: fewer than two
elements (`ValueError`), or all elements equal, giving a singular sample
covariance (`LinAlgError` from the Cholesky factorisation). -/
def kde_singular : List ℚ → Bool
  | [] => true
  | x :: xs => xs.all (fun y => y = x)

/-- `_dynamic_threshold` (source lines 69-103).  `peak valid lo hi` stands for
the scipy density-peak location `x[np.argmax(kde(x))]` with
`x = np.linspace(lo, hi, 100)` built from the filtered dataset `valid`; it is
an arbitrary total function, since the KDE numerics are external library code.
`none` models the exception raised by `gaussian_kde` on a degenerate
(singular) dataset. -/
def dynamic_threshold (peak : List ℚ → ℚ → ℚ → ℚ) (durations : List ℚ)
    (category : Category) : Option ℚ :=
  let valid_durations := durations.filter (fun d => category_min category < d)
  if valid_durations.isEmpty then some (category_mean category)
  else if kde_singular valid_durations then none
  else
    let p := peak valid_durations (category_min category) (category_max category)
    match category with
    | Category.dit => some (p * (85/100))
    | Category.dah => some (p * (105/100))

/-- A trivial instantiation of the abstract peak locator, used to state closed
facts that do not depend on the located peak value. -/
def peak_stub : List ℚ → ℚ → ℚ → ℚ := fun _ _ _ => 0

/-- The assembler state of `decode` (source lines 279-337): the `output` token
list, the pending `current_char` symbol list, and the `accumulated_gap`. -/
structure AsmState where
  output : List String
  current_char : List Char
  accumulated_gap : ℚ

/-- One iteration of the `for state, duration in durations` loop of `decode`
(source lines 289-329).  On a tone run, a positive accumulated gap is first
classified: a word gap flushes the pending character (when non-empty) and
appends the `' '` token, a char gap only flushes, any other class is dropped;
in every case the accumulated gap is reset.  The tone run is then classified
and appended to the pending character.  A silence run only accumulates. -/
def asm_step (st : AsmState) (run : Bool × ℚ) : AsmState :=
  if run.1 then
    let st1 :=
      if 0 < st.accumulated_gap then
        match classify_gap st.accumulated_gap with
        | some GapClass.word =>
          let out := if st.current_char.isEmpty then st.output
                     else st.output ++ [String.mk st.current_char]
          ⟨out ++ [" "], [], 0⟩
        | some GapClass.char =>
          let out := if st.current_char.isEmpty then st.output
                     else st.output ++ [String.mk st.current_char]
          ⟨out, [], 0⟩
        | _ => ⟨st.output, st.current_char, 0⟩
      else st
    ⟨st1.output, st1.current_char ++ [classify_symbol run.2], st1.accumulated_gap⟩
  else
    ⟨st.output, st.current_char, st.accumulated_gap + run.2⟩

/-- The token list produced by the assembler loop of `decode`, including the
final flush of a non-empty pending character (source lines 335-337). -/
def assemble (durations : List (Bool × ℚ)) : List String :=
  let fin := durations.foldl asm_step ⟨[], [], 0⟩
  if fin.current_char.isEmpty then fin.output
  else fin.output ++ [String.mk fin.current_char]

/-- The body of the fault-tolerant translation loop of `decode` (source lines
343-353): a token present in `MORSE_CODE_DICT` maps to its entry, any other
token to `'?'`. -/
def translate_token (code : String) : Char :=
  match dict_lookup MORSE_CODE_DICT code with
  | some ch => ch
  | none => '?'

/-- The full translation loop of `decode`: one character per token. -/
def translate (tokens : List String) : List Char :=
  tokens.map translate_token

/-- Python `str.replace("  ", " ")`: left-to-right replacement of
non-overlapping double-space occurrences by a single space. -/
def py_replace_double_space : List Char → List Char
  | [] => []
  | [c] => [c]
  | c1 :: c2 :: rest =>
    if c1 = ' ' ∧ c2 = ' ' then ' ' :: py_replace_double_space rest
    else c1 :: py_replace_double_space (c2 :: rest)

/-- Python `str.strip()` on the decoder output: removal of leading and
trailing whitespace (only the space character can occur there). -/
def py_strip (l : List Char) : List Char :=
  (((l.dropWhile (fun c => c = ' ')).reverse).dropWhile (fun c => c = ' ')).reverse

/-- The run-sequence-to-text part of `decode` (source lines 279-357) with the
dead calibration step removed: assemble, translate, then
`''.join(text).replace('  ', ' ').strip()`. -/
def decode_runs (durations : List (Bool × ℚ)) : String :=
  String.mk (py_strip (py_replace_double_space (translate (assemble durations))))

/-- The run-sequence-to-text part of `decode` as written (source lines
269-357): first the density-peak calibration computes `dit_threshold` and
`dah_threshold` from the tone-run durations (propagating the `gaussian_kde`
exception, modelled as `none`), then the assembler and translator run.  The
two thresholds are bound but never read afterwards. -/
def decode_with_calibration (peak : List ℚ → ℚ → ℚ → ℚ)
    (durations : List (Bool × ℚ)) : Option String :=
  let active_durations := (durations.filter (fun r => r.1)).map (fun r => r.2)
  match dynamic_threshold peak active_durations Category.dit with
  | none => none
  | some _dit_threshold =>
    match dynamic_threshold peak active_durations Category.dah with
    | none => none
    | some _dah_threshold =>
      some (String.mk (py_strip (py_replace_double_space (translate (assemble durations)))))

/-- The run-length segmentation loop of `decode` (source lines 235-255), on
the binary sequence with `current_state` and a running `count`; emits
`(state, count)` pairs, counts in samples. -/
def run_loop : Bool → ℕ → List Bool → List (Bool × ℕ)
  | st, c, [] => [(st, c)]
  | st, c, v :: vs =>
    if v = st then run_loop st (c + 1) vs
    else (st, c) :: run_loop v 1 vs

/-- The run list of a non-empty binary sequence, durations in seconds
(`count / self.sample_rate`). -/
def runs_of (b : Bool) (rest : List Bool) (sample_rate : ℚ) : List (Bool × ℚ) :=
  (run_loop b 1 rest).map (fun p => (p.1, (p.2 : ℚ) / sample_rate))

/-- Run-length segmentation of `decode` (source lines 235-255).  The first
statement is `current_state = binary[0]`, which raises `IndexError` on an
empty binary sequence; that exception is modelled by `none`. -/
def segment_runs (binary : List Bool) (sample_rate : ℚ) : Option (List (Bool × ℚ)) :=
  match binary with
  | [] => none
  | b :: rest => some (runs_of b rest sample_rate)

/-- `window_size = int(self.sample_rate / 187.5)` (source line 217): floor of
`sample_rate / (375/2)` for a natural sample rate. -/
def window_size (sample_rate : ℕ) : ℕ :=
  2 * sample_rate / 375

/-- Full discrete convolution of two sequences (`np.convolve`, mode `full`):
entry `k` is the sum over `j` of `a[j] * v[k - j]`. -/
def conv_full (a v : List ℚ) : List ℚ :=
  (List.range (a.length + v.length - 1)).map (fun k =>
    ((List.range a.length).map (fun j =>
      if j ≤ k then a.getD j 0 * v.getD (k - j) 0 else 0)).sum)

/-- `np.convolve(a, v, mode='same')`: the centred slice of the full
convolution, of length `max a.length v.length`.  (The exact centring
convention does not matter for any theorem below.) -/
def conv_same (a v : List ℚ) : List ℚ :=
  ((conv_full a v).drop ((Nat.min a.length v.length - 1) / 2)).take
    (Nat.max a.length v.length)

/-- The moving mean-square step of the envelope (source line 219) before the
outer `np.sqrt`:
`np.convolve(samples**2, np.ones(window_size)/window_size, mode='same')`.
`np.convolve` raises `ValueError` when either argument is empty, which
happens when `window_size = 0` (so `np.ones(0)/0` is the empty kernel and no
division by zero is ever evaluated) or when the signal is empty; both are
modelled by `none`.  There is no fallback to a window of signal length. -/
def moving_mean_square (sample_rate : ℕ) (samples : List ℚ) : Option (List ℚ) :=
  let w := window_size sample_rate
  if w = 0 ∨ samples.isEmpty then none
  else some (conv_same (samples.map (fun s => s ^ 2))
    (List.replicate w (1 / (w : ℚ))))

/-- Shape of the tokens the assembler can emit: the word-boundary token `" "`
or a non-empty string of dot and dash symbols. -/
def good_token (s : String) : Prop :=
  s = " " ∨ (s.data ≠ [] ∧ ∀ c ∈ s.data, c = '.' ∨ c = '-')

end Morse

namespace Morse

/-! ### Helper lemmas -/

theorem classify_symbol_dot_or_dash (d : ℚ) :
    classify_symbol d = '.' ∨ classify_symbol d = '-' := by
  simp only [classify_symbol]
  split <;> simp

theorem dict_lookup_mem {l : List (String × Char)} {code : String} {v : Char}
    (h : dict_lookup l code = some v) : (code, v) ∈ l := by
  induction l with
  | nil => simp [dict_lookup] at h
  | cons p rest ih =>
    obtain ⟨k, w⟩ := p
    unfold dict_lookup at h
    split at h
    · rename_i hk
      subst hk
      simp at h
      subst h
      exact List.mem_cons_self _ _
    · exact List.mem_cons_of_mem _ (ih h)

theorem dict_space_value_is_slash :
    ∀ p ∈ MORSE_CODE_DICT, p.2 = ' ' → p.1 = "/" := by
  decide

theorem translate_token_ne_space {s : String} (hs : good_token s) :
    translate_token s ≠ ' ' := by
  rcases hs with hs | ⟨hne, hchars⟩
  · subst hs
    decide
  · unfold translate_token
    split
    · rename_i ch hch
      intro hsp
      subst hsp
      have hmem := dict_lookup_mem hch
      have hslash := dict_space_value_is_slash _ hmem rfl
      simp at hslash
      subst hslash
      have := hchars '/' (by simp)
      simp at this
    · simp

theorem py_replace_double_space_of_no_space {l : List Char}
    (h : ∀ c ∈ l, c ≠ ' ') : py_replace_double_space l = l := by
  induction l using py_replace_double_space.induct with
  | case1 => rfl
  | case2 c => rfl
  | case3 c1 c2 rest hsp ih =>
    exact absurd hsp.1 (h c1 (by simp))
  | case4 c1 c2 rest hsp ih =>
    unfold py_replace_double_space
    rw [if_neg hsp, ih]
    intro c hc
    exact h c (List.mem_cons_of_mem _ hc)

theorem dropWhile_space_of_no_space {l : List Char}
    (h : ∀ c ∈ l, c ≠ ' ') : l.dropWhile (fun c => c = ' ') = l := by
  cases l with
  | nil => rfl
  | cons c rest =>
    rw [List.dropWhile_cons]
    simp [h c (by simp)]

theorem py_strip_of_no_space {l : List Char}
    (h : ∀ c ∈ l, c ≠ ' ') : py_strip l = l := by
  unfold py_strip
  rw [dropWhile_space_of_no_space h, dropWhile_space_of_no_space, List.reverse_reverse]
  intro c hc
  exact h c (List.mem_reverse.mp hc)

/-- The invariant maintained by the assembler loop: every emitted token is
well-shaped and the pending character consists of dot and dash symbols. -/
def asm_inv (st : AsmState) : Prop :=
  (∀ t ∈ st.output, good_token t) ∧ (∀ c ∈ st.current_char, c = '.' ∨ c = '-')

theorem asm_step_inv {st : AsmState} (hst : asm_inv st) (run : Bool × ℚ) :
    asm_inv (asm_step st run) := by
  obtain ⟨hout, hcc⟩ := hst
  unfold asm_step
  by_cases hr : run.1
  · simp only [hr, if_true]
    have hflush : ∀ t ∈ (if st.current_char.isEmpty then st.output
        else st.output ++ [String.mk st.current_char]), good_token t := by
      split
      · exact hout
      · intro t ht
        rcases List.mem_append.mp ht with ht | ht
        · exact hout t ht
        · simp at ht
          subst ht
          right
          refine ⟨?_, hcc⟩
          rename_i hne
          simpa [String.mk] using (by simpa using hne : st.current_char ≠ [])
    split
    · split
      · -- word gap
        constructor
        · intro t ht
          rcases List.mem_append.mp ht with ht | ht
          · exact hflush t ht
          · simp at ht
            subst ht
            left
            rfl
        · intro c hc
          simp at hc
          subst hc
          exact classify_symbol_dot_or_dash run.2
      · -- char gap
        constructor
        · exact hflush
        · intro c hc
          simp at hc
          subst hc
          exact classify_symbol_dot_or_dash run.2
      · -- elem or none: only the accumulated gap is reset
        refine ⟨hout, ?_⟩
        intro c hc
        rcases List.mem_append.mp hc with hc | hc
        · exact hcc c hc
        · simp at hc
          subst hc
          exact classify_symbol_dot_or_dash run.2
    · -- no accumulated gap
      refine ⟨hout, ?_⟩
      intro c hc
      rcases List.mem_append.mp hc with hc | hc
      · exact hcc c hc
      · simp at hc
        subst hc
        exact classify_symbol_dot_or_dash run.2
  · simp only [hr, if_false]
    exact ⟨hout, hcc⟩

theorem foldl_asm_inv (durations : List (Bool × ℚ)) {st : AsmState}
    (hst : asm_inv st) : asm_inv (durations.foldl asm_step st) := by
  induction durations generalizing st with
  | nil => exact hst
  | cons run rest ih => exact ih (asm_step_inv hst run)

theorem assemble_good_tokens (durations : List (Bool × ℚ)) :
    ∀ t ∈ assemble durations, good_token t := by
  have hinv : asm_inv (durations.foldl asm_step ⟨[], [], 0⟩) :=
    foldl_asm_inv durations (by constructor <;> simp)
  obtain ⟨hout, hcc⟩ := hinv
  intro t ht
  unfold assemble at ht
  dsimp only at ht
  split at ht
  · exact hout t ht
  · rcases List.mem_append.mp ht with ht | ht
    · exact hout t ht
    · simp at ht
      subst ht
      right
      refine ⟨?_, hcc⟩
      rename_i hne
      simpa [String.mk] using (by simpa using hne :
        (durations.foldl asm_step ⟨[], [], 0⟩).current_char ≠ [])

theorem translate_assemble_no_space (durations : List (Bool × ℚ)) :
    ∀ c ∈ translate (assemble durations), c ≠ ' ' := by
  intro c hc
  unfold translate at hc
  rcases List.mem_map.mp hc with ⟨tok, htok, rfl⟩
  exact translate_token_ne_space (assemble_good_tokens durations tok htok)

theorem run_loop_head (vs : List Bool) : ∀ (st : Bool) (c : ℕ),
    ∃ k rest2, run_loop st c vs = (st, k) :: rest2 := by
  induction vs with
  | nil => exact fun st c => ⟨c, [], rfl⟩
  | cons v vs ih =>
    intro st c
    unfold run_loop
    split
    · rename_i hv
      subst hv
      exact ih v (c + 1)
    · exact ⟨c, run_loop v 1 vs, rfl⟩

theorem run_loop_chain (vs : List Bool) : ∀ (st : Bool) (c : ℕ),
    List.Chain' (fun p q : Bool × ℕ => p.1 ≠ q.1) (run_loop st c vs) := by
  induction vs with
  | nil => intro st c; simp [run_loop]
  | cons v vs ih =>
    intro st c
    unfold run_loop
    split
    · rename_i hv
      subst hv
      exact ih v (c + 1)
    · rename_i hne
      obtain ⟨k, rest2, heq⟩ := run_loop_head vs v 1
      rw [heq, List.chain'_cons]
      exact ⟨Ne.symm hne, heq ▸ ih v 1⟩

theorem run_loop_pos (vs : List Bool) : ∀ (st : Bool) (c : ℕ), 0 < c →
    ∀ p ∈ run_loop st c vs, 0 < p.2 := by
  induction vs with
  | nil =>
    intro st c hc p hp
    simp [run_loop] at hp
    subst hp
    exact hc
  | cons v vs ih =>
    intro st c hc p hp
    unfold run_loop at hp
    split at hp
    · exact ih st (c + 1) (by omega) p hp
    · rcases List.mem_cons.mp hp with hp | hp
      · subst hp; exact hc
      · exact ih v 1 (by omega) p hp

theorem run_loop_sum (vs : List Bool) : ∀ (st : Bool) (c : ℕ),
    ((run_loop st c vs).map (fun p => p.2)).sum = c + vs.length := by
  induction vs with
  | nil => intro st c; simp [run_loop]
  | cons v vs ih =>
    intro st c
    unfold run_loop
    split
    · rw [ih]
      simp
      omega
    · simp [ih v 1]
      omega

theorem list_sum_div (l : List ℚ) (c : ℚ) :
    (l.map (fun x => x / c)).sum = l.sum / c := by
  induction l with
  | nil => simp
  | cons x xs ih => simp [ih, add_div]

theorem classify_symbol_dot_at_dit : classify_symbol (3/50) = '.' := by
  simp only [classify_symbol, dit, dah]
  rw [if_neg]
  rw [not_lt, abs_sub_comm (3/50 : ℚ) (9/50),
      abs_of_nonneg (by norm_num : (0:ℚ) ≤ 9/50 - 3/50),
      abs_of_nonneg (by norm_num : (0:ℚ) ≤ 3/50 - 3/50)]
  norm_num

theorem classify_symbol_dash_at_dah : classify_symbol (9/50) = '-' := by
  simp only [classify_symbol, dit, dah]
  rw [if_pos]
  rw [abs_of_nonneg (by norm_num : (0:ℚ) ≤ 9/50 - 9/50),
      abs_of_nonneg (by norm_num : (0:ℚ) ≤ 9/50 - 3/50)]
  norm_num

theorem classify_symbol_dot_at_seven : classify_symbol (7/100) = '.' := by
  simp only [classify_symbol, dit, dah]
  rw [if_neg]
  rw [not_lt, abs_sub_comm (7/100 : ℚ) (9/50),
      abs_of_nonneg (by norm_num : (0:ℚ) ≤ 9/50 - 7/100),
      abs_of_nonneg (by norm_num : (0:ℚ) ≤ 7/100 - 3/50)]
  norm_num

theorem classify_gap_word_eval : classify_gap (21/50) = some GapClass.word := by
  norm_num [classify_gap, word_gap, char_gap, elem_gap]

theorem classify_gap_char_eval : classify_gap (9/50) = some GapClass.char := by
  norm_num [classify_gap, word_gap, char_gap, elem_gap]

theorem classify_gap_none_eval : classify_gap (3/50) = none := by
  norm_num [classify_gap, word_gap, char_gap, elem_gap]

/-! ### Claim theorems -/

/-- C1 (code evaluated at the failing input): for the run sequence
dit, word-class gap (0.42 s), dit, the decoded text is `"E?E"`: the word
boundary is rendered as `'?'`, not as a literal space, because the assembler
token `" "` is not a key of `MORSE_CODE_DICT`. -/
theorem word_boundary_rendered_as_question_mark :
    decode_runs [(true, 3/50), (false, 21/50), (true, 3/50)] = "E?E" := by
  have h1 : assemble [(true, 3/50), (false, 21/50), (true, 3/50)] = [".", " ", "."] := by
    norm_num [assemble, asm_step, classify_gap_word_eval, classify_symbol_dot_at_dit]
  unfold decode_runs
  rw [h1]
  decide

/-- C2 (counterexample): on the single-tone-run sequence, the source decode
raises inside the calibration step (the filtered dit dataset is the singular
singleton `[0.06]`, on which `gaussian_kde` raises), so its output differs
from the variant with the calibration step removed. -/
theorem calibration_changes_observable_behaviour :
    decode_with_calibration peak_stub [(true, 3/50)]
      ≠ some (decode_runs [(true, 3/50)]) := by
  have h : decode_with_calibration peak_stub [(true, 3/50)] = none := by
    norm_num [decode_with_calibration, dynamic_threshold, kde_singular,
      category_min, category_mean, category_max, dit, dah, peak_stub]
  rw [h]
  simp

/-- C2 (amended): the thresholds computed by the calibration step are never
read by classification or assembly; whenever the calibration step returns
at all, for any peak-locating function, the output of decode equals the
output of the variant with the calibration step removed. -/
theorem calibration_result_never_read (peak : List ℚ → ℚ → ℚ → ℚ)
    (durations : List (Bool × ℚ)) (s : String)
    (h : decode_with_calibration peak durations = some s) :
    s = decode_runs durations := by
  unfold decode_with_calibration at h
  dsimp only at h
  split at h
  · exact absurd h (by simp)
  · split at h
    · exact absurd h (by simp)
    · simp only [Option.some.injEq] at h
      exact h.symm

/-- Witness for C2: a run sequence on which calibration succeeds and the
amended equivalence evaluates concretely. -/
theorem calibration_result_never_read_witness :
    ("EE" : String) = decode_runs [(true, 3/50), (false, 9/50), (true, 7/100)] :=
  calibration_result_never_read peak_stub
    [(true, 3/50), (false, 9/50), (true, 7/100)] "EE" (by
      have h1 : assemble [(true, 3/50), (false, 9/50), (true, 7/100)] = [".", "."] := by
        norm_num [assemble, asm_step, classify_gap_char_eval,
          classify_symbol_dot_at_dit, classify_symbol_dot_at_seven]
      have h2 : String.mk (py_strip (py_replace_double_space (translate [".", "."])))
          = "EE" := by decide
      norm_num [decode_with_calibration, dynamic_threshold, kde_singular,
        category_min, category_mean, category_max, dit, dah, peak_stub, h1, h2])

/-- C3: the synthetic SOS run sequence at the default timing means (three
0.06 s tones with 0.06 s gaps, a 0.18 s gap, three 0.18 s tones with 0.06 s
gaps, a 0.18 s gap, three 0.06 s tones with 0.06 s gaps) decodes to exactly
`"SOS"`, with no unresolved characters. -/
theorem decode_sos_runs :
    decode_runs [(true, 3/50), (false, 3/50), (true, 3/50), (false, 3/50),
      (true, 3/50), (false, 9/50), (true, 9/50), (false, 3/50), (true, 9/50),
      (false, 3/50), (true, 9/50), (false, 9/50), (true, 3/50), (false, 3/50),
      (true, 3/50), (false, 3/50), (true, 3/50)] = "SOS" := by
  have h1 : assemble [(true, 3/50), (false, 3/50), (true, 3/50), (false, 3/50),
      (true, 3/50), (false, 9/50), (true, 9/50), (false, 3/50), (true, 9/50),
      (false, 3/50), (true, 9/50), (false, 9/50), (true, 3/50), (false, 3/50),
      (true, 3/50), (false, 3/50), (true, 3/50)] = ["...", "---", "..."] := by
    norm_num [assemble, asm_step, classify_gap_char_eval, classify_gap_none_eval,
      classify_symbol_dot_at_dit, classify_symbol_dash_at_dah]
  unfold decode_runs
  rw [h1]
  decide

/-- C4 (counterexample): on an empty binary sequence the segmentation step
raises (`current_state = binary[0]` is an `IndexError`), rather than
treating the whole input as one run. -/
theorem empty_binary_segmentation_raises :
    segment_runs [] 8000 = none := rfl

/-- C4 (amended): a non-empty all-silent or all-tone binary input yields a
single degenerate run covering the whole input; only the empty sequence makes
segmentation raise. -/
theorem constant_binary_single_run (b : Bool) (n : ℕ) (sample_rate : ℚ) :
    segment_runs (List.replicate (n + 1) b) sample_rate
      = some [(b, ((n + 1 : ℕ) : ℚ) / sample_rate)] := by
  have hloop : ∀ (m c : ℕ), run_loop b c (List.replicate m b) = [(b, c + m)] := by
    intro m
    induction m with
    | zero => intro c; simp [run_loop]
    | succ k ih =>
      intro c
      rw [List.replicate_succ]
      unfold run_loop
      rw [if_pos rfl, ih]
      have hc : c + 1 + k = c + (k + 1) := by omega
      rw [hc]
  rw [List.replicate_succ]
  have hseg : segment_runs (b :: List.replicate n b) sample_rate
      = some (runs_of b (List.replicate n b) sample_rate) := rfl
  rw [hseg]
  unfold runs_of
  rw [hloop n 1, Nat.add_comm 1 n]
  simp

/-- C5 (code evaluated at the failing input): on the duration list `[0.05]`
and category dit, the single sample survives the hard-minimum filter, and
`gaussian_kde` on a one-element dataset raises `ValueError`; the modelled
`_dynamic_threshold` therefore returns `none` instead of a value. -/
theorem dynamic_threshold_raises_on_singleton :
    dynamic_threshold peak_stub [1/20] Category.dit = none := by
  norm_num [dynamic_threshold, kde_singular, category_min, dit]

/-- C6: gap classification against the three descending thresholds, with
word taking precedence over char over elem, `>=` at every boundary (so a gap
of exactly `word_gap.mean * 0.8 = 0.336` is a word gap, while one sample
period at 8000 Hz less is a char gap). -/
theorem classify_gap_threshold_rule :
    (∀ d : ℚ,
      (classify_gap d = some GapClass.word ↔ 42/125 ≤ d) ∧
      (classify_gap d = some GapClass.char ↔ 63/500 ≤ d ∧ d < 42/125) ∧
      (classify_gap d = some GapClass.elem ↔ 9/125 ≤ d ∧ d < 63/500) ∧
      (classify_gap d = none ↔ d < 9/125)) ∧
    classify_gap (42/125) = some GapClass.word ∧
    classify_gap (42/125 - 1/8000) = some GapClass.char := by
  refine ⟨?_, by norm_num [classify_gap, word_gap, char_gap, elem_gap],
    by norm_num [classify_gap, word_gap, char_gap, elem_gap]⟩
  intro d
  have e : classify_gap d =
      if 42/125 ≤ d then some GapClass.word
      else if 63/500 ≤ d then some GapClass.char
      else if 9/125 ≤ d then some GapClass.elem
      else none := by
    unfold classify_gap
    norm_num [word_gap, char_gap, elem_gap]
  rw [e]
  split_ifs with h1 h2 h3
  · have ha : ¬ d < 42/125 := not_lt.mpr h1
    have hb : ¬ d < 63/500 := not_lt.mpr (le_trans (by norm_num) h1)
    have hc : ¬ d < 9/125 := not_lt.mpr (le_trans (by norm_num) h1)
    simp [h1, ha, hb, hc]
  · have ha : d < 42/125 := not_le.mp h1
    have hb : ¬ d < 63/500 := not_lt.mpr h2
    have hc : ¬ d < 9/125 := not_lt.mpr (le_trans (by norm_num) h2)
    simp [h1, h2, ha, hb, hc]
  · have ha : d < 63/500 := not_le.mp h2
    have hb : ¬ d < 9/125 := not_lt.mpr h3
    simp [h1, h2, h3, ha, hb]
  · have ha : d < 9/125 := not_le.mp h3
    simp [h1, h2, h3, ha]

/-- C7 (counterexample): at sample rate 100 (below 187.5) the window size is
zero, not positive, and even for a three-sample signal the envelope step
fails instead of falling back to a window of signal length. -/
theorem window_size_not_positive_at_low_rate :
    window_size 100 = 0 ∧ moving_mean_square 100 [1, 1, 1] = none := by
  constructor
  · rfl
  · rfl

/-- C7 (amended): the window size `int(sample_rate / 187.5)` is positive
exactly for sample rates of at least 188; there is no fallback to a window of
signal length: the envelope step fails exactly when the window size is zero
(empty kernel) or the signal is empty, and a division by zero never occurs
because the kernel `np.ones(w)/w` is built only in the branch where `w` is
positive here. -/
theorem window_size_positivity_and_failure (sample_rate : ℕ) (samples : List ℚ) :
    (0 < window_size sample_rate ↔ 188 ≤ sample_rate) ∧
    (moving_mean_square sample_rate samples = none ↔
      window_size sample_rate = 0 ∨ samples = []) := by
  constructor
  · unfold window_size
    omega
  · unfold moving_mean_square
    dsimp only
    split_ifs with h
    · simp only [true_iff]
      rcases h with h | h
      · exact Or.inl h
      · exact Or.inr (by simpa using h)
    · simp only [false_iff]
      push_neg at h
      intro hc
      rcases hc with hc | hc
      · exact h.1 hc
      · exact absurd (by simp [hc]) h.2

/-- C8: whenever run-length segmentation produces a run sequence (any
non-empty binary input), consecutive runs strictly alternate state, every
duration is strictly positive, and the durations sum exactly to the input
length divided by the sample rate (so in particular within one sample
period of it). -/
theorem segmentation_invariants (b : Bool) (rest : List Bool) (sample_rate : ℚ)
    (hsr : 0 < sample_rate) :
    segment_runs (b :: rest) sample_rate = some (runs_of b rest sample_rate) ∧
    List.Chain' (fun p q : Bool × ℚ => p.1 ≠ q.1) (runs_of b rest sample_rate) ∧
    (∀ r ∈ runs_of b rest sample_rate, 0 < r.2) ∧
    ((runs_of b rest sample_rate).map (fun r => r.2)).sum
      = ((rest.length + 1 : ℕ) : ℚ) / sample_rate := by
  refine ⟨rfl, ?_, ?_, ?_⟩
  · unfold runs_of
    rw [List.chain'_map]
    exact run_loop_chain rest b 1
  · intro r hr
    unfold runs_of at hr
    rcases List.mem_map.mp hr with ⟨p, hp, rfl⟩
    have hpos := run_loop_pos rest b 1 (by omega) p hp
    exact div_pos (by exact_mod_cast hpos) hsr
  · unfold runs_of
    rw [List.map_map]
    have hcomp : ((fun r : Bool × ℚ => r.2) ∘ fun p : Bool × ℕ => (p.1, (p.2 : ℚ) / sample_rate))
        = fun p : Bool × ℕ => (p.2 : ℚ) / sample_rate := rfl
    rw [hcomp]
    have hmap : (fun p : Bool × ℕ => (p.2 : ℚ) / sample_rate)
        = (fun x : ℚ => x / sample_rate) ∘ (fun p : Bool × ℕ => (p.2 : ℚ)) := rfl
    rw [hmap, ← List.map_map, list_sum_div]
    congr 1
    have hcast : ((run_loop b 1 rest).map (fun p : Bool × ℕ => (p.2 : ℚ))).sum
        = (((run_loop b 1 rest).map (fun p => p.2)).sum : ℕ) := by
      rw [Nat.cast_list_sum, List.map_map]
      rfl
    rw [hcast, run_loop_sum rest b 1]
    push_cast
    ring

/-- Witness for C8, at the binary sequence tone, tone, silence and sample
rate 8000. -/
theorem segmentation_invariants_witness :
    segment_runs [true, true, false] 8000 = some (runs_of true [true, false] 8000) ∧
    List.Chain' (fun p q : Bool × ℚ => p.1 ≠ q.1) (runs_of true [true, false] 8000) ∧
    (∀ r ∈ runs_of true [true, false] 8000, 0 < r.2) ∧
    ((runs_of true [true, false] 8000).map (fun r => r.2)).sum
      = ((([true, false] : List Bool).length + 1 : ℕ) : ℚ) / 8000 :=
  segmentation_invariants true [true, false] 8000 (by norm_num)

/-- C9: a tone run is classified as dash exactly when its z-score against the
dah statistics is strictly below its z-score against the dit statistics, and
as dot otherwise; in particular the tie at 0.12 s (both z-scores equal 3) is
classified as dot. -/
theorem classify_symbol_zscore_rule :
    (∀ d : ℚ, classify_symbol d = '-' ↔
      |d - dah.mean| / dah.std < |d - dit.mean| / dit.std) ∧
    (∀ d : ℚ, classify_symbol d = '.' ↔
      ¬ (|d - dah.mean| / dah.std < |d - dit.mean| / dit.std)) ∧
    classify_symbol (3/25) = '.' := by
  have key : ∀ d : ℚ, (classify_symbol d = '-' ↔
      |d - dah.mean| / dah.std < |d - dit.mean| / dit.std) := by
    intro d
    simp only [classify_symbol]
    split_ifs with h
    · simp [h]
    · simp [h]
  refine ⟨key, ?_, ?_⟩
  · intro d
    simp only [classify_symbol]
    split_ifs with h
    · simp [h]
    · simp [h]
  · have htie : ¬ (|(3:ℚ)/25 - dah.mean| / dah.std < |(3:ℚ)/25 - dit.mean| / dit.std) := by
      simp only [dit, dah]
      rw [abs_sub_comm ((3:ℚ)/25) (9/50),
        abs_of_nonneg (by norm_num : (0:ℚ) ≤ 9/50 - 3/25),
        abs_of_nonneg (by norm_num : (0:ℚ) ≤ 3/25 - 3/50)]
      norm_num
    rcases classify_symbol_dot_or_dash (3/25) with h | h
    · exact h
    · exact absurd ((key (3/25)).mp h) htie

/-- C10: the translation step maps every assembled token to exactly one
character (unknown tokens to `'?'`, never raising), and the final
`replace`/`strip` post-processing drops nothing, because no space character
can occur in the translated character list: the decoded text is exactly the
one-character-per-token translation of the assembled tokens. -/
theorem translation_one_char_per_token (durations : List (Bool × ℚ)) :
    decode_runs durations = String.mk (translate (assemble durations)) ∧
    (translate (assemble durations)).length = (assemble durations).length := by
  constructor
  · unfold decode_runs
    rw [py_replace_double_space_of_no_space (translate_assemble_no_space durations),
        py_strip_of_no_space (translate_assemble_no_space durations)]
  · unfold translate
    exact List.length_map _ _

